import Mathlib

/-!
Verification development for the 5.8 GHz scanner / auto-tuning analog video
demodulator. Real arithmetic of the Python source (numpy floats) is embedded
as exact rational arithmetic over `ℚ`; machine integers as `ℤ`/`ℕ`; fallible
paths as `Option`/explicit result constructors. Each definition mirrors one
function of the source tree (`app/scanner.py`, `app/storage.py`,
`app/hw_capture.py`, `app/demod_autotune.py`, `app/demod_lines.py`).
-/

/-- Candidate status, `status ∈ {new, active, lost}` (`storage.py` CHECK
constraint and `scanner.py` line 159). -/
inductive Status
| new
| active
| lost
deriving DecidableEq, Repr

/-- Scanner configuration fields used by the per-channel measurement step
(`scanner.py`, `Scanner.__init__`). -/
structure ScanConfig where
  minSnrDb : ℚ
  alertHits : ℕ
  alertWindow : ℕ
  emaAlpha : ℚ
deriving DecidableEq, Repr

/-- Per-channel scanner state: the two EMA registers and the N-of-M activity
window (a `deque(maxlen=alert_window)`), `scanner.py` lines 129-131. -/
structure ChanState where
  emaPower : ℚ
  emaSnr : ℚ
  window : List Bool
deriving DecidableEq, Repr

/-- Initial per-channel state from `Scanner.__init__` (`scanner.py` 129-131):
`ema_power_dbm = -60.0`, `ema_snr_db = 0.0`, empty deque. -/
def chanInit : ChanState := ⟨-60, 0, []⟩

/-- Last `k` elements of a list (what survives in a bounded deque). -/
def takeLast (l : List α) (k : ℕ) : List α := l.drop (l.length - k)

/-- Append to a `deque(maxlen)`: push the new element, dropping the oldest
entries beyond `maxlen`. -/
def pushWindow (maxlen : ℕ) (w : List Bool) (b : Bool) : List Bool :=
  takeLast (w ++ [b]) maxlen

/-- `hits = sum(1 for v in win if v)` (`scanner.py` line 158). -/
def countHits (w : List Bool) : ℕ := w.count true

/-- One channel measurement of `Scanner.run` (`scanner.py` lines 151-159):
EMA updates for power and SNR, candidate test against `min_snr_db`, activity
window push, hit count and status assignment. Returns the updated channel
state and the status passed to the storage upsert. -/
def measureStep (cfg : ScanConfig) (s : ChanState) (bandPowerDb snrDb : ℚ) :
    ChanState × Status :=
  let emaP := (1 - cfg.emaAlpha) * s.emaPower + cfg.emaAlpha * bandPowerDb
  let emaS := (1 - cfg.emaAlpha) * s.emaSnr + cfg.emaAlpha * snrDb
  let isCand := decide (cfg.minSnrDb ≤ emaS)
  let w := pushWindow cfg.alertWindow s.window isCand
  let hits := countHits w
  let status :=
    if cfg.alertHits ≤ hits ∧ min cfg.alertWindow cfg.alertHits ≤ w.length then
      Status.active
    else if isCand then Status.new else Status.lost
  (⟨emaP, emaS, w⟩, status)

/-- One row of the `candidates` table (`storage.py`). Timestamps are modelled
as rationals ordered like the RFC-3339 UTC strings the code stores. -/
structure CandRow where
  powerDbm : ℚ
  snrDb : ℚ
  emaPower : ℚ
  emaSnr : ℚ
  firstSeen : ℚ
  lastSeen : ℚ
  hits : ℤ
  status : Status
deriving DecidableEq, Repr

/-- Hit increment, `1 if snr_db >= 0 else 0` (`storage.py` lines 63 and 77). -/
def hitInc (snrDb : ℚ) : ℤ := if 0 ≤ snrDb then 1 else 0

/-- `upsert_candidate` for one frequency (`storage.py` lines 46-88): on a
missing row, insert with `ema_* = `the passed values, `first_seen = last_seen
= now`, `hits = 1 if snr_db >= 0 else 0`; on an existing row, advance the
stored EMAs by first-order recursion, keep `first_seen` (RFC-3339 strings are
nonempty, so the falsy fallback branch is unreachable), set `last_seen = now`
and add the hit increment. -/
def upsert_candidate (prev : Option CandRow) (nowTs powerDbm snrDb : ℚ)
    (st : Status) (emaAlpha : ℚ) : CandRow :=
  match prev with
  | none =>
      ⟨powerDbm, snrDb, powerDbm, snrDb, nowTs, nowTs, hitInc snrDb, st⟩
  | some r =>
      ⟨powerDbm, snrDb,
       (1 - emaAlpha) * r.emaPower + emaAlpha * powerDbm,
       (1 - emaAlpha) * r.emaSnr + emaAlpha * snrDb,
       r.firstSeen, nowTs, r.hits + hitInc snrDb, st⟩

/-- One observation handed to the storage layer: the wall-clock timestamp and
the arguments of `upsert_candidate`. -/
structure Obs where
  ts : ℚ
  powerDbm : ℚ
  snrDb : ℚ
  status : Status
  alpha : ℚ
deriving DecidableEq, Repr

/-- Run a sequence of upserts for one frequency starting from a given row
state (the DB holds at most one row per `freq_hz`, the primary key). -/
def runFrom (acc : Option CandRow) (obs : List Obs) : Option CandRow :=
  obs.foldl (fun a o => some (upsert_candidate a o.ts o.powerDbm o.snrDb o.status o.alpha)) acc

/-- Run a sequence of upserts for one frequency on an initially absent row. -/
def runUpserts (obs : List Obs) : Option CandRow := runFrom none obs

/-- Nondecreasing wall clock along an observation list, starting from an
optional lower bound (the clock reading of the previous upsert). -/
def tsOK : Option ℚ → List Obs → Bool
  | _, [] => true
  | none, o :: rest => tsOK (some o.ts) rest
  | some t, o :: rest => decide (t ≤ o.ts) && tsOK (some o.ts) rest

/-- Hits of an optional row, 0 when absent. -/
def hitsOf : Option CandRow → ℤ
  | none => 0
  | some r => r.hits

/-- Timestamp bound after consuming an observation list. -/
def endTs : Option ℚ → List Obs → Option ℚ
  | t, [] => t
  | _, o :: rest => endTs (some o.ts) rest

/-- Complex baseband sample, embedded as a pair of rationals (re, im). -/
abbrev IQ := ℚ × ℚ

/-- Result of one driver `readStream` call on the 16-bit path: either a list
of interleaved (I, Q) integer frames (with `ret = ` frame count; `ret ≤ 0` is
the empty list) or a raised exception. -/
inductive R16
| ok (frames : List (ℤ × ℤ))
| exn
deriving DecidableEq, Repr

/-- Result of one driver `readStream` call on the 8-bit path. -/
inductive R8
| ok (frames : List (ℤ × ℤ))
| exn
deriving DecidableEq, Repr

/-- Stream sample format, `self.format ∈ {"CS16", "CS8"}`. -/
inductive Fmt
| cs16
| cs8
deriving DecidableEq, Repr

/-- Normalize one 16-bit frame to unit-scale floats, `vec = sl / 32768.0`. -/
def norm16 (p : ℤ × ℤ) : IQ := ((p.1 : ℚ) / 32768, (p.2 : ℚ) / 32768)

/-- Normalize one 8-bit frame, `vec8 = sl8 / 128.0`. -/
def norm8 (p : ℤ × ℤ) : IQ := ((p.1 : ℚ) / 128, (p.2 : ℚ) / 128)

/-- Outcome of `SoapyHackRFSampler.capture` (`hw_capture.py` lines 85-133):
a fully read buffer, a propagated exception, or no return at all (the loop
spins while the driver keeps reporting no data). -/
inductive CapRes
| filled (xs : List IQ)
| raised
| blocked
deriving DecidableEq, Repr

/-- Read loop of `SoapyHackRFSampler.capture` (`hw_capture.py` lines 99-120).
One trace entry is consumed per `while` iteration: the int16 read is probed
first (its exceptions are caught), and on failure the int8 read runs with no
exception handler, so an int8 exception propagates out of `capture`. The
driver returns at most `need = min(4096, num_samples - total)` frames per
read. The stream setup calls before the loop can also raise; the model covers
the read loop, which is where transient failures occur. -/
def soapyLoop (n : ℕ) : List (R16 × R8) → List IQ → CapRes
  | [], acc =>
      if n ≤ acc.length then CapRes.filled (acc.take n) else CapRes.blocked
  | (r16, r8) :: rest, acc =>
      if n ≤ acc.length then CapRes.filled (acc.take n)
      else
        let need := min 4096 (n - acc.length)
        match r16 with
        | R16.ok frames =>
            let fr := frames.take need
            if 0 < fr.length then soapyLoop n rest (acc ++ fr.map norm16)
            else
              match r8 with
              | R8.exn => CapRes.raised
              | R8.ok frames8 =>
                  let fr8 := frames8.take need
                  if 0 < fr8.length then soapyLoop n rest (acc ++ fr8.map norm8)
                  else soapyLoop n rest acc
        | R16.exn =>
            match r8 with
            | R8.exn => CapRes.raised
            | R8.ok frames8 =>
                let fr8 := frames8.take need
                if 0 < fr8.length then soapyLoop n rest (acc ++ fr8.map norm8)
                else soapyLoop n rest acc

/-- `SoapyHackRFSampler.capture` read phase over a driver trace. -/
def soapy_capture (n : ℕ) (trace : List (R16 × R8)) : CapRes :=
  soapyLoop n trace []

/-- Outcome of `HackRFStream.read_samples` (`demod_autotune.py` 108-135):
a returned buffer or no return (driver forever reporting no data). There is
no exception outcome: the whole loop body sits inside `try/except`, and the
handler returns `np.zeros(num_samples)`. -/
inductive RdRes
| ret (xs : List IQ)
| blocked
deriving DecidableEq, Repr

/-- Read loop of `HackRFStream.read_samples` (`demod_autotune.py` 108-135).
`self.format` latches from CS16 to CS8 when the 16-bit read reports `ret ≤ 0`
(sticky for the session); any exception is caught by the enclosing handler,
which returns a zero-filled buffer of exactly `num_samples` samples. -/
def readLoop (n : ℕ) : List (R16 × R8) → Fmt → List IQ → Fmt × RdRes
  | [], fmt, acc =>
      (fmt, if n ≤ acc.length then RdRes.ret (acc.take n) else RdRes.blocked)
  | (r16, r8) :: rest, fmt, acc =>
      if n ≤ acc.length then (fmt, RdRes.ret (acc.take n))
      else
        let need := min 4096 (n - acc.length)
        match fmt, r16 with
        | Fmt.cs16, R16.exn =>
            (Fmt.cs16, RdRes.ret (List.replicate n ((0 : ℚ), (0 : ℚ))))
        | Fmt.cs16, R16.ok frames =>
            let fr := frames.take need
            if 0 < fr.length then readLoop n rest Fmt.cs16 (acc ++ fr.map norm16)
            else
              match r8 with
              | R8.exn => (Fmt.cs8, RdRes.ret (List.replicate n ((0 : ℚ), (0 : ℚ))))
              | R8.ok frames8 =>
                  let fr8 := frames8.take need
                  if 0 < fr8.length then readLoop n rest Fmt.cs8 (acc ++ fr8.map norm8)
                  else readLoop n rest Fmt.cs8 acc
        | Fmt.cs8, _ =>
            match r8 with
            | R8.exn => (Fmt.cs8, RdRes.ret (List.replicate n ((0 : ℚ), (0 : ℚ))))
            | R8.ok frames8 =>
                let fr8 := frames8.take need
                if 0 < fr8.length then readLoop n rest Fmt.cs8 (acc ++ fr8.map norm8)
                else readLoop n rest Fmt.cs8 acc

/-- `HackRFStream.read_samples` over a driver trace, returning the (possibly
latched) format together with the result. -/
def read_samples (n : ℕ) (fmt : Fmt) (trace : List (R16 × R8)) : Fmt × RdRes :=
  readLoop n trace fmt []

/-- Clip test of the 16-bit path: `(sl >= 32760) | (sl <= -32760)`
(`demod_autotune.py` line 156). -/
def clipTest16 (x : ℤ) : Bool := decide (32760 ≤ x) || decide (x ≤ -32760)

/-- Clip test of the 8-bit path: `(sl8 >= 127) | (sl8 <= -127)`
(`demod_autotune.py` line 167). -/
def clipTest8 (x : ℤ) : Bool := decide (127 ≤ x) || decide (x ≤ -127)

/-- Interleave a frame list into the flat raw integer stream `sl` that the
clip counters scan. -/
def flatRaw (frames : List (ℤ × ℤ)) : List ℤ :=
  frames.foldr (fun p acc => p.1 :: p.2 :: acc) []

/-- Outcome of `HackRFStream.read_samples_with_stats` (`demod_autotune.py`
137-177): the buffer with its clip fraction, the exception fallback (which
returns `np.zeros(total or num_samples)` with rms and clip 0.0), or no
return. The `rms` output involves a square root and is left out of the model;
no claim mentions it. -/
inductive SRes
| done (buf : List IQ) (clipFrac : ℚ)
| exc (buf : List IQ)
| blocked
deriving DecidableEq, Repr

/-- Read loop of `read_samples_with_stats` (`demod_autotune.py` 148-174),
accumulating `clips` and `raw` over the flattened integer reads before
normalization. Besides the result, it reports the raw 16-bit and 8-bit
integers it consumed, in order, so that the clip accounting can be stated
against them. -/
def statsLoop (n : ℕ) :
    List (R16 × R8) → Fmt → List IQ → ℕ → ℕ → List ℤ → List ℤ →
    (SRes × List ℤ × List ℤ)
  | [], _, acc, clips, raw, g16, g8 =>
      (if n ≤ acc.length then
         SRes.done (acc.take n) ((clips : ℚ) / (max 1 (raw : ℚ)))
       else SRes.blocked, g16, g8)
  | (r16, r8) :: rest, fmt, acc, clips, raw, g16, g8 =>
      if n ≤ acc.length then
        (SRes.done (acc.take n) ((clips : ℚ) / (max 1 (raw : ℚ))), g16, g8)
      else
        let need := min 4096 (n - acc.length)
        match fmt, r16 with
        | Fmt.cs16, R16.exn =>
            (SRes.exc (List.replicate
              (if acc.length = 0 then n else acc.length) ((0 : ℚ), (0 : ℚ))),
             g16, g8)
        | Fmt.cs16, R16.ok frames =>
            let fr := frames.take need
            if 0 < fr.length then
              let sl := flatRaw fr
              statsLoop n rest Fmt.cs16 (acc ++ fr.map norm16)
                (clips + sl.countP clipTest16) (raw + sl.length)
                (g16 ++ sl) g8
            else
              match r8 with
              | R8.exn =>
                  (SRes.exc (List.replicate
                    (if acc.length = 0 then n else acc.length) ((0 : ℚ), (0 : ℚ))),
                   g16, g8)
              | R8.ok frames8 =>
                  let fr8 := frames8.take need
                  if 0 < fr8.length then
                    let sl8 := flatRaw fr8
                    statsLoop n rest Fmt.cs8 (acc ++ fr8.map norm8)
                      (clips + sl8.countP clipTest8) (raw + sl8.length)
                      g16 (g8 ++ sl8)
                  else statsLoop n rest Fmt.cs8 acc clips raw g16 g8
        | Fmt.cs8, _ =>
            match r8 with
            | R8.exn =>
                (SRes.exc (List.replicate
                  (if acc.length = 0 then n else acc.length) ((0 : ℚ), (0 : ℚ))),
                 g16, g8)
            | R8.ok frames8 =>
                let fr8 := frames8.take need
                if 0 < fr8.length then
                  let sl8 := flatRaw fr8
                  statsLoop n rest Fmt.cs8 (acc ++ fr8.map norm8)
                    (clips + sl8.countP clipTest8) (raw + sl8.length)
                    g16 (g8 ++ sl8)
                else statsLoop n rest Fmt.cs8 acc clips raw g16 g8

/-- `HackRFStream.read_samples_with_stats` over a driver trace. -/
def read_samples_with_stats (n : ℕ) (fmt : Fmt) (trace : List (R16 × R8)) :
    SRes × List ℤ × List ℤ :=
  statsLoop n trace fmt [] 0 0 [] []

/-- Clip fraction as the specification words it: `count(|raw| ≥ fullscale−1)
/ raw_count` on the original integer samples (threshold 32767 on the 16-bit
path, 127 on the 8-bit path). -/
def specClipFrac (g16 g8 : List ℤ) : ℚ :=
  ((g16.countP (fun x => decide (32767 ≤ x) || decide (x ≤ -32767)) +
    g8.countP (fun x => decide (127 ≤ x) || decide (x ≤ -127)) : ℕ) : ℚ) /
  (max 1 ((g16.length + g8.length : ℕ) : ℚ))

/-- Python `int()` applied to an exact rational: truncation toward zero. -/
def pyInt (x : ℚ) : ℤ := if 0 ≤ x then ⌊x⌋ else ⌈x⌉

/-- Nominal line rate, `15734.0 if prefer_ntsc else 15625.0`. -/
def lineRate (preferNtsc : Bool) : ℚ := if preferNtsc then 15734 else 15625

/-- Linear autocorrelation of a real sequence at lag `k`. The source computes
it as `irfft(rfft(win, m) * conj(...))[:n]` with `m` the next power of two
`≥ 2n`; with at least `n` zeros of padding the circular autocorrelation the
FFT produces equals this direct sum for every lag below `n`. -/
def acfLag (w : List ℚ) (k : ℕ) : ℚ :=
  ((List.range (w.length - k)).map (fun i => w.getD i 0 * w.getD (i + k) 0)).sum

/-- Strict comparison on autocorrelation bins where `none` stands for the
`-inf` written into masked lags. -/
def binGt (a b : Option ℚ) : Bool :=
  match a, b with
  | some x, some y => decide (y < x)
  | some _, none => true
  | _, _ => false

/-- `np.argmax` over `n` bins with masked entries: index of the first
maximal bin, 0 when every bin is `-inf` (numpy returns index 0 then). -/
def argmaxMasked (vals : ℕ → Option ℚ) (n : ℕ) : ℕ :=
  (List.range n).foldl (fun best i => if binGt (vals i) (vals best) then i else best) 0

/-- Lag search of `estimate_line_len._peak` (`demod_autotune.py` 232-257):
short inputs (`n < 4096`) return `int(sample_rate_hz / lr_nom)` directly;
otherwise the de-meaned envelope's autocorrelation is masked outside
`[int(sr/(lr·1.15)), int(sr/(lr·0.85))]`, the argmax is taken and clamped to
those integer bounds. Only the returned lag is modelled; the confidence
output (a `tanh` of the peak prominence) is not used by any claim. -/
def peakLag (envelope : List ℚ) (srHz lrNom : ℚ) : ℤ :=
  let n := envelope.length
  if n < 4096 then pyInt (srHz / lrNom)
  else
    let mu := envelope.sum / (n : ℚ)
    let w := envelope.map (fun x => x - mu)
    let minLen := pyInt (srHz / (lrNom * (23 / 20)))
    let maxLen := pyInt (srHz / (lrNom * (17 / 20)))
    let lag : ℤ :=
      (argmaxMasked
        (fun i => if minLen ≤ (i : ℤ) ∧ (i : ℤ) < maxLen then some (acfLag w i) else none)
        n : ℤ)
    max minLen (min maxLen lag)

/-- `estimate_line_len` for a stated preference (`demod_autotune.py` 259-267
else-branch; with `prefer_ntsc = None` the source runs `_peak` for both rates
and keeps the higher-confidence lag, so its result is `peakLag` at one of the
two rates). `estimate_line_len_samples` in `demod_lines.py` (45-65) is the
same lag computation without the short-input guard. -/
def estimate_line_len (envelope : List ℚ) (srHz : ℚ) (preferNtsc : Bool) : ℤ :=
  peakLag envelope srHz (lineRate preferNtsc)

/-- HackRF front-end gain pair owned by `HackRFStream` (`lna_gain`,
`vga_gain`). -/
structure Gains where
  lna : ℤ
  vga : ℤ
deriving DecidableEq, Repr

/-- `set_gains(vga=v)`: clamp to `[0, 62]` (`demod_autotune.py` line 101). -/
def setVga (g : Gains) (v : ℤ) : Gains := ⟨g.lna, max 0 (min 62 v)⟩

/-- `set_gains(lna=l)`: clamp to `[0, 40]` (`demod_autotune.py` line 95). -/
def setLna (g : Gains) (l : ℤ) : Gains := ⟨max 0 (min 40 l), g.vga⟩

/-- State threaded through the `auto_gain` loop: current gains, the rms/clip
pair from the most recent probe, a cursor into the measurement oracle (each
`read_samples_with_stats` call consumes one entry) and the break flag. -/
structure AgcState where
  gains : Gains
  rms : ℚ
  clip : ℚ
  cursor : ℕ
  stopped : Bool
deriving DecidableEq, Repr

/-- One iteration of the `auto_gain` loop body (`demod_autotune.py` 356-376):
when `clip > max_clip` the VGA is stepped down by 6 (clamped at 0); otherwise
a small error breaks the loop; then the iteration always nudges the VGA by
`±6` toward the target, and if the mid-iteration probe is still outside
`±20%` of target it nudges the LNA too, ending with a fresh probe. -/
def auto_gain_iter (meas : ℕ → ℚ × ℚ) (targetRms maxClip : ℚ) (s : AgcState) :
    AgcState :=
  if s.stopped then s
  else
    let err := targetRms - s.rms
    let g1 := if maxClip < s.clip then setVga s.gains (s.gains.vga - 6) else s.gains
    if ¬ (maxClip < s.clip) ∧ |err| < 3 / 100 then
      ⟨s.gains, s.rms, s.clip, s.cursor, true⟩
    else
      let step : ℤ := if 0 < err then 6 else -6
      let g2 := setVga g1 (g1.vga + step)
      let m1 := meas s.cursor
      let g3 :=
        if (0 < err ∧ m1.1 < targetRms * (4 / 5)) ∨
           (err < 0 ∧ targetRms * (6 / 5) < m1.1) then
          setLna g2 (g2.lna + step)
        else g2
      let m2 := meas (s.cursor + 1)
      ⟨g3, m2.1, m2.2, s.cursor + 2, false⟩

/-- `auto_gain` (`demod_autotune.py` 348-378): initial probe, then at most 8
iterations of `auto_gain_iter`. Defaults are `target_rms = 0.25`,
`max_clip = 0.01`. -/
def auto_gain (meas : ℕ → ℚ × ℚ) (targetRms maxClip : ℚ) (g0 : Gains) :
    AgcState :=
  let m0 := meas 0
  (List.range 8).foldl (fun s _ => auto_gain_iter meas targetRms maxClip s)
    ⟨g0, m0.1, m0.2, 1, false⟩

/-- AFC probe deltas of the tracking loop (`demod_autotune.py` line 440). -/
def afcDeltas : List ℤ := [-50000, -25000, 0, 25000, 50000]

/-- Small-step AFC block of the tracking loop (`demod_autotune.py` 438-455).
For each nonzero delta the hardware is tuned to `tuned_f + df` and a probe
quality is measured; a delta wins when it beats the running best by more
than 0.02. Afterwards the code re-tunes the hardware only when a delta won.
Returns `(tuned_f, device center frequency)` at the end of the block; the
emitted frame metadata reports the first component (`freq_hz = tuned_f`). -/
def afcStep (tunedF : ℤ) (q : ℚ) (probeQ : ℤ → ℚ) : ℤ × ℤ :=
  let r := afcDeltas.foldl
    (fun (b : ℤ × ℚ × ℤ) df =>
      if df = 0 then b
      else
        let qs := probeQ df
        if b.2.1 + 2 / 100 < qs then (df, qs, tunedF + df)
        else (b.1, b.2.1, tunedF + df))
    (0, q, tunedF)
  if r.1 ≠ 0 then (tunedF + r.1, tunedF + r.1) else (tunedF, r.2.2)

/-- State of the process-global numpy RNG that `np.random.normal` consumes:
an underlying stream of standard-normal draws and a cursor. The generator is
never reseeded by the source, so successive captures consume successive
stream positions. -/
structure RngState where
  stream : ℕ → ℚ
  pos : ℕ

/-- `np.random.normal(scale, size)`: the next `size` draws of the stream,
scaled, advancing the cursor. -/
def normalDraws (scale : ℚ) (size : ℕ) (r : RngState) : List ℚ × RngState :=
  ((List.range size).map (fun i => scale * r.stream (r.pos + i)),
   ⟨r.stream, r.pos + size⟩)

/-- `SyntheticSampler.capture` (`hw_capture.py` 22-31): complex Gaussian
noise of scale 0.2 (real parts drawn first, then imaginary parts), plus a
10 kHz tone of amplitude 0.8 added iff `freq_hz == hot`. The tone samples
`0.8 * exp(2j*pi*1e4*k/sr)` are transcendental, so they enter the model as
an abstract function of the sample rate and index; the claims touch only the
noise path. -/
def synthetic_capture (tone : ℚ → ℕ → IQ) (hot freqHz : ℤ) (srHz : ℚ)
    (n : ℕ) (r : RngState) : List IQ × RngState :=
  let re := normalDraws (1 / 5) n r
  let im := normalDraws (1 / 5) n re.2
  let noise := re.1.zip im.1
  if freqHz = hot then
    (noise.zipWith (fun a b => (a.1 + b.1, a.2 + b.2))
      ((List.range n).map (tone srHz)), im.2)
  else (noise, im.2)

/-- Zero tone function used to instantiate concrete evaluations on non-hot
channels, where the tone is never added. -/
def toneZero : ℚ → ℕ → IQ := fun _ _ => ((0 : ℚ), (0 : ℚ))

/-- Identity-stream RNG state: draw `k` has value `k`. Stands in for an
arbitrary global RNG whose successive draws differ. -/
def rngId : RngState := ⟨fun k => (k : ℚ), 0⟩

/-- Indices of `np.linspace(0, line_len - 1, num=width, dtype=np.int32)`
(`demod_autotune.py` line 277): `width` evenly spaced points from 0 to
`line_len - 1`, truncated to integers. -/
def linspaceIdx (lineLen width : ℕ) : List ℕ :=
  if width = 0 then []
  else if width = 1 then [0]
  else (List.range width).map (fun i => i * (lineLen - 1) / (width - 1))

/-- Ascending insertion used by the percentile sort. -/
def insertAsc (x : ℚ) : List ℚ → List ℚ
  | [] => [x]
  | y :: ys => if x ≤ y then x :: y :: ys else y :: insertAsc x ys

/-- Ascending sort of the frame values (what `np.percentile` does first). -/
def sortAsc (xs : List ℚ) : List ℚ := xs.foldr insertAsc []

/-- `np.percentile(xs, p)` with the default linear interpolation; `none` on
an empty array (numpy raises there). -/
def percentileQ (xs : List ℚ) (p : ℚ) : Option ℚ :=
  let s := sortAsc xs
  match s with
  | [] => none
  | _ :: _ =>
    let n := s.length
    let h := (p / 100) * ((n : ℚ) - 1)
    let lo := (⌊h⌋).toNat
    let frac := h - (⌊h⌋ : ℚ)
    let x0 := s.getD lo 0
    let x1 := s.getD (min (lo + 1) (n - 1)) 0
    some (x0 + frac * (x1 - x0))

/-- Clamp to the unit interval, `np.clip(_, 0.0, 1.0)`. -/
def clip01 (x : ℚ) : ℚ := max 0 (min 1 x)

/-- `astype(np.uint8)` of a value already clipped into `[0, 255]`:
truncation. -/
def toByte (x : ℚ) : ℕ := (⌊x⌋).toNat

/-- Raster body of `frame_from_raster` (`demod_autotune.py` 270-297) after
padding (`build_frame_from_raster` in `demod_lines.py` 68-85 is the same
pipeline): keep the last `needed = line_len * height` samples (`env[-0:]`
keeps the whole array), reshape to `height x line_len` rows (raising on a
size mismatch), sample `width` columns at the truncated linspace indices
(numpy bounds-checks them), then map the 5th-95th percentile range linearly
to `[0, 255]` and truncate to bytes. `none` marks the paths where numpy
raises. The adjacent-line correlation quality output divides by `np.std` (a
square root) and is not modelled; no claim mentions it. -/
def rasterPixels (e : List ℚ) (lineLen width height : ℕ) : Option (List ℕ) :=
  let needed := lineLen * height
  let buf := if needed = 0 then e else e.drop (e.length - needed)
  if buf.length ≠ height * lineLen then none
  else
    let idx := linspaceIdx lineLen width
    if idx.any (fun i => decide (lineLen ≤ i)) then none
    else
      let lines := (List.range height).map (fun r => (buf.drop (r * lineLen)).take lineLen)
      let img := lines.map (fun row => idx.map (fun i => row.getD i 0))
      let flat := img.flatten
      match percentileQ flat 5, percentileQ flat 95 with
      | some p5, some p95 =>
        let denom := max (1 / 1000000) (p95 - p5)
        some (flat.map (fun v => toByte (clip01 ((v - p5) / denom) * 255)))
      | _, _ => none

/-- Left edge-padding step of `frame_from_raster`: when the envelope is
shorter than `needed = line_len * height` samples, prepend copies of its
first element (`np.pad(..., mode="edge")`, which raises on an empty array). -/
def frame_from_raster (env : List ℚ) (lineLen width height : ℕ) :
    Option (List ℕ) :=
  let needed := lineLen * height
  if env.length < needed then
    match env with
    | [] => none
    | x :: _ =>
        rasterPixels (List.replicate (needed - env.length) x ++ env) lineLen width height
  else rasterPixels env lineLen width height

/-- C1 counterexample: with `alpha = 0.1` the very first measurement of a
fresh channel (raw power −20 dB, raw SNR 20 dB) leaves the scanner EMAs at
−56 and 2, not at the raw values: the EMAs are initialized at construction to
−60/0, not to the first raw measurement. -/
theorem c1_counterexample :
    (measureStep ⟨6, 3, 5, 1 / 10⟩ chanInit (-20) 20).1.emaSnr ≠ 20 ∧
    (measureStep ⟨6, 3, 5, 1 / 10⟩ chanInit (-20) 20).1.emaPower ≠ -20 := by
  constructor <;> (simp only [measureStep, chanInit]; norm_num)

/-- C1 (amended): the scanner EMAs start at −60 dBm (power) and 0 dB (SNR)
at construction, and every update, the first observation included, follows
`ema ← (1−α)·ema + α·raw`; the storage upsert initializes its stored EMA
columns to the passed values on first insert and applies the same first-order
recursion on every later upsert. -/
theorem c1_ema_amended :
    (chanInit.emaPower = -60 ∧ chanInit.emaSnr = 0) ∧
    (∀ (cfg : ScanConfig) (s : ChanState) (p q : ℚ),
        (measureStep cfg s p q).1.emaPower =
          (1 - cfg.emaAlpha) * s.emaPower + cfg.emaAlpha * p ∧
        (measureStep cfg s p q).1.emaSnr =
          (1 - cfg.emaAlpha) * s.emaSnr + cfg.emaAlpha * q) ∧
    (∀ (nowTs p q : ℚ) (st : Status) (a : ℚ),
        (upsert_candidate none nowTs p q st a).emaPower = p ∧
        (upsert_candidate none nowTs p q st a).emaSnr = q) ∧
    (∀ (r : CandRow) (nowTs p q : ℚ) (st : Status) (a : ℚ),
        (upsert_candidate (some r) nowTs p q st a).emaPower =
          (1 - a) * r.emaPower + a * p ∧
        (upsert_candidate (some r) nowTs p q st a).emaSnr =
          (1 - a) * r.emaSnr + a * q) := by
  refine ⟨⟨rfl, rfl⟩, fun cfg s p q => ⟨rfl, rfl⟩,
    fun nowTs p q st a => ⟨rfl, rfl⟩, fun r nowTs p q st a => ⟨rfl, rfl⟩⟩

/-- C4: after each measurement the assigned status is `active` exactly when
`hits ≥ alert_hits` and the post-update window holds at least
`min(alert_window, alert_hits)` entries; otherwise `new` exactly when the
updated EMA SNR clears `min_snr_db`; otherwise `lost`. -/
theorem c4_status (cfg : ScanConfig) (s : ChanState) (p q : ℚ) :
    ((measureStep cfg s p q).2 = Status.active ↔
      cfg.alertHits ≤ countHits (measureStep cfg s p q).1.window ∧
        min cfg.alertWindow cfg.alertHits ≤ (measureStep cfg s p q).1.window.length) ∧
    ((measureStep cfg s p q).2 = Status.new ↔
      ¬ (cfg.alertHits ≤ countHits (measureStep cfg s p q).1.window ∧
          min cfg.alertWindow cfg.alertHits ≤ (measureStep cfg s p q).1.window.length) ∧
        cfg.minSnrDb ≤ (measureStep cfg s p q).1.emaSnr) ∧
    ((measureStep cfg s p q).2 = Status.lost ↔
      ¬ (cfg.alertHits ≤ countHits (measureStep cfg s p q).1.window ∧
          min cfg.alertWindow cfg.alertHits ≤ (measureStep cfg s p q).1.window.length) ∧
        ¬ cfg.minSnrDb ≤ (measureStep cfg s p q).1.emaSnr) := by
  have key : ∀ (c1 : Prop) [Decidable c1] (b : Bool),
      ((if c1 then Status.active else if b then Status.new else Status.lost) =
          Status.active ↔ c1) ∧
      ((if c1 then Status.active else if b then Status.new else Status.lost) =
          Status.new ↔ ¬ c1 ∧ b = true) ∧
      ((if c1 then Status.active else if b then Status.new else Status.lost) =
          Status.lost ↔ ¬ c1 ∧ ¬ b = true) := by
    intro c1 _ b
    by_cases h : c1 <;> cases b <;> simp [h]
  have h2 := key
    (cfg.alertHits ≤
        countHits (pushWindow cfg.alertWindow s.window
          (decide (cfg.minSnrDb ≤ (1 - cfg.emaAlpha) * s.emaSnr + cfg.emaAlpha * q))) ∧
      min cfg.alertWindow cfg.alertHits ≤
        (pushWindow cfg.alertWindow s.window
          (decide (cfg.minSnrDb ≤ (1 - cfg.emaAlpha) * s.emaSnr + cfg.emaAlpha * q))).length)
    (decide (cfg.minSnrDb ≤ (1 - cfg.emaAlpha) * s.emaSnr + cfg.emaAlpha * q))
  simpa [measureStep, decide_eq_true_eq] using h2

/-- Final wall-clock value after replaying an observation list from `t`. -/
def lastTs (t : ℚ) (l : List Obs) : ℚ := l.foldl (fun _ o => o.ts) t

/-- Hit increments are 0 or 1, hence nonnegative. -/
theorem hitInc_nonneg (q : ℚ) : 0 ≤ hitInc q := by
  unfold hitInc; split <;> norm_num

/-- Replaying a concatenation is replaying the parts in order. -/
theorem runFrom_append (a : Option CandRow) (l1 l2 : List Obs) :
    runFrom a (l1 ++ l2) = runFrom (runFrom a l1) l2 := by
  unfold runFrom; exact List.foldl_append _ _ _ _

/-- Clock monotonicity splits across a concatenation. -/
theorem tsOK_append (l1 : List Obs) : ∀ (t : ℚ) (l2 : List Obs),
    tsOK (some t) (l1 ++ l2) = (tsOK (some t) l1 && tsOK (some (lastTs t l1)) l2) := by
  induction l1 with
  | nil => intro t l2; simp [tsOK, lastTs]
  | cons o rest ih =>
    intro t l2
    show (decide (t ≤ o.ts) && tsOK (some o.ts) (rest ++ l2)) =
      ((decide (t ≤ o.ts) && tsOK (some o.ts) rest) && tsOK (some (lastTs t (o :: rest))) l2)
    have hl : lastTs t (o :: rest) = lastTs o.ts rest := rfl
    rw [hl, ih o.ts l2, Bool.and_assoc]

/-- Invariant preservation along a replay from an existing row: hits stay
nonnegative and nondecreasing, `first_seen ≤ last_seen` is preserved, and
`last_seen` tracks the wall clock. -/
theorem c5_aux (obs : List Obs) : ∀ (r : CandRow),
    0 ≤ r.hits → r.firstSeen ≤ r.lastSeen → tsOK (some r.lastSeen) obs = true →
    ∃ r2, runFrom (some r) obs = some r2 ∧ 0 ≤ r2.hits ∧ r.hits ≤ r2.hits ∧
      r2.firstSeen ≤ r2.lastSeen ∧ r2.lastSeen = lastTs r.lastSeen obs := by
  induction obs with
  | nil =>
    intro r h0 h1 _
    exact ⟨r, rfl, h0, le_refl _, h1, rfl⟩
  | cons o rest ih =>
    intro r h0 h1 hts
    have hts' : r.lastSeen ≤ o.ts ∧ tsOK (some o.ts) rest = true := by
      simpa only [tsOK, Bool.and_eq_true, decide_eq_true_eq] using hts
    set r1 := upsert_candidate (some r) o.ts o.powerDbm o.snrDb o.status o.alpha with hr1
    have e1 : r1.hits = r.hits + hitInc o.snrDb := rfl
    have e2 : r1.firstSeen = r.firstSeen := rfl
    have e3 : r1.lastSeen = o.ts := rfl
    have h0' : 0 ≤ r1.hits := by rw [e1]; exact add_nonneg h0 (hitInc_nonneg _)
    have h1' : r1.firstSeen ≤ r1.lastSeen := by
      rw [e2, e3]; exact le_trans h1 hts'.1
    obtain ⟨r2, hrun, a2, b2, c2, d2⟩ := ih r1 h0' h1' (by rw [e3]; exact hts'.2)
    have hstep : runFrom (some r) (o :: rest) = runFrom (some r1) rest := rfl
    refine ⟨r2, by rw [hstep]; exact hrun, a2, ?_, c2, ?_⟩
    · have : r.hits ≤ r1.hits := by rw [e1]; exact le_add_of_nonneg_right (hitInc_nonneg _)
      exact le_trans this b2
    · have hl : lastTs r.lastSeen (o :: rest) = lastTs o.ts rest := rfl
      rw [hl, d2, e3]

/-- C5: for any clock-monotone observation sequence replayed through
`upsert_candidate`, the stored `hits` value never decreases across further
upserts, and the final row (when one exists) has nonnegative `hits` and
`first_seen ≤ last_seen`. -/
theorem c5_hits_monotone (obs extra : List Obs)
    (h : tsOK none (obs ++ extra) = true) :
    hitsOf (runUpserts obs) ≤ hitsOf (runUpserts (obs ++ extra)) ∧
    ∀ r, runUpserts (obs ++ extra) = some r → 0 ≤ r.hits ∧ r.firstSeen ≤ r.lastSeen := by
  cases obs with
  | nil =>
    simp only [List.nil_append] at h ⊢
    cases extra with
    | nil =>
      refine ⟨le_refl _, ?_⟩
      intro r hr; cases hr
    | cons o rest =>
      have h' : tsOK (some o.ts) rest = true := h
      set r0 := upsert_candidate none o.ts o.powerDbm o.snrDb o.status o.alpha with hr0
      have h0 : 0 ≤ r0.hits := hitInc_nonneg _
      have h1 : r0.firstSeen ≤ r0.lastSeen := le_refl _
      have h3 : r0.lastSeen = o.ts := rfl
      obtain ⟨r2, hrun, a2, _, c2, _⟩ := c5_aux rest r0 h0 h1 (by rw [h3]; exact h')
      have hu : runUpserts (o :: rest) = runFrom (some r0) rest := rfl
      constructor
      · show hitsOf (runUpserts []) ≤ hitsOf (runUpserts (o :: rest))
        rw [hu, hrun]; exact a2
      · intro r hr
        rw [hu, hrun] at hr
        cases hr
        exact ⟨a2, c2⟩
  | cons o orest =>
    have h' : tsOK (some o.ts) (orest ++ extra) = true := h
    rw [tsOK_append, Bool.and_eq_true] at h'
    set r0 := upsert_candidate none o.ts o.powerDbm o.snrDb o.status o.alpha with hr0
    have h0 : 0 ≤ r0.hits := hitInc_nonneg _
    have h1 : r0.firstSeen ≤ r0.lastSeen := le_refl _
    have h3 : r0.lastSeen = o.ts := rfl
    obtain ⟨rMid, hrunM, aM, _, cM, dM⟩ := c5_aux orest r0 h0 h1 (by rw [h3]; exact h'.1)
    obtain ⟨rFin, hrunF, aF, bF, cF, _⟩ := c5_aux extra rMid aM cM (by rw [dM, h3]; exact h'.2)
    have hu1 : runUpserts (o :: orest) = runFrom (some r0) orest := rfl
    have hu2 : runUpserts ((o :: orest) ++ extra) = runFrom (some r0) (orest ++ extra) := rfl
    have hu3 : runFrom (some r0) (orest ++ extra) = runFrom (runFrom (some r0) orest) extra :=
      runFrom_append _ _ _
    constructor
    · rw [hu1, hrunM, hu2, hu3, hrunM, hrunF]
      exact bF
    · intro r hr
      rw [hu2, hu3, hrunM, hrunF] at hr
      cases hr
      exact ⟨aF, cF⟩

/-- C5 witness: a concrete two-observation run (timestamps 0 then 1)
satisfies the clock hypothesis, and the theorem yields hit monotonicity for
it. -/
theorem c5_witness :
    tsOK none ([⟨0, -50, 7, Status.new, 1 / 10⟩] ++ [⟨1, -48, 8, Status.new, 1 / 10⟩]) = true ∧
    hitsOf (runUpserts [⟨0, -50, 7, Status.new, 1 / 10⟩]) ≤
      hitsOf (runUpserts ([⟨0, -50, 7, Status.new, 1 / 10⟩] ++ [⟨1, -48, 8, Status.new, 1 / 10⟩])) :=
  ⟨by norm_num [tsOK],
   (c5_hits_monotone [⟨0, -50, 7, Status.new, 1 / 10⟩] [⟨1, -48, 8, Status.new, 1 / 10⟩]
     (by norm_num [tsOK])).1⟩

/-- C2 counterexample: a single transient failure during reading in which the
16-bit probe reports no data and the 8-bit read raises makes
`SoapyHackRFSampler.capture` itself raise — `capture` is not exception-free. -/
theorem c2_counterexample :
    soapy_capture 1 [(R16.ok [], R8.exn)] = CapRes.raised := rfl

/-- Every terminating run of the `read_samples` loop returns a buffer of
exactly `n` samples (fully read, or zero-filled by the exception handler). -/
theorem readLoop_shape (n : ℕ) : ∀ (trace : List (R16 × R8)) (fmt : Fmt) (acc : List IQ),
    (readLoop n trace fmt acc).2 = RdRes.blocked ∨
    ∃ xs, (readLoop n trace fmt acc).2 = RdRes.ret xs ∧ xs.length = n := by
  intro trace
  induction trace with
  | nil =>
    intro fmt acc
    simp only [readLoop]
    by_cases h : n ≤ acc.length
    · right
      refine ⟨acc.take n, by simp [h], by simp [List.length_take]; omega⟩
    · left
      simp [h]
  | cons e rest ih =>
    obtain ⟨r16, r8⟩ := e
    intro fmt acc
    simp only [readLoop]
    split
    · right
      next h => exact ⟨acc.take n, rfl, by simp [List.length_take]; omega⟩
    · next h =>
      split
      · right; exact ⟨List.replicate n ((0 : ℚ), (0 : ℚ)), rfl, by simp⟩
      · split
        · exact ih _ _
        · split
          · right; exact ⟨List.replicate n ((0 : ℚ), (0 : ℚ)), rfl, by simp⟩
          · split
            · exact ih _ _
            · exact ih _ _
      · split
        · right; exact ⟨List.replicate n ((0 : ℚ), (0 : ℚ)), rfl, by simp⟩
        · split
          · exact ih _ _
          · exact ih _ _

/-- Every outcome of the `SoapyHackRFSampler.capture` loop is a raised
exception, a forever-blocking read, or a fully read buffer of exactly `n`
samples. -/
theorem soapyLoop_shape (n : ℕ) : ∀ (trace : List (R16 × R8)) (acc : List IQ),
    soapyLoop n trace acc = CapRes.raised ∨
    soapyLoop n trace acc = CapRes.blocked ∨
    ∃ xs, soapyLoop n trace acc = CapRes.filled xs ∧ xs.length = n := by
  intro trace
  induction trace with
  | nil =>
    intro acc
    simp only [soapyLoop]
    by_cases h : n ≤ acc.length
    · right; right
      refine ⟨acc.take n, by simp [h], by simp [List.length_take]; omega⟩
    · right; left
      simp [h]
  | cons e rest ih =>
    obtain ⟨r16, r8⟩ := e
    intro acc
    simp only [soapyLoop]
    split
    · right; right
      next h => exact ⟨acc.take n, rfl, by simp [List.length_take]; omega⟩
    · next h =>
      split
      · split
        · exact ih _
        · split
          · left; rfl
          · split
            · exact ih _
            · exact ih _
      · split
        · left; rfl
        · split
          · exact ih _
          · exact ih _

/-- C2 (amended): `HackRFStream.read_samples` never raises — when a driver
trace lets it return at all, the buffer has exactly `n` samples (fully read,
or zero-filled by the exception fallback), never short and never
uninitialized. `SoapyHackRFSampler.capture`, in contrast, either propagates
an exception from the 8-bit read path, blocks, or returns a fully read
buffer of exactly `n` samples; it never returns a short or zero-filled one. -/
theorem c2_read_semantics :
    (∀ (n : ℕ) (trace : List (R16 × R8)) (fmt : Fmt),
        (read_samples n fmt trace).2 = RdRes.blocked ∨
        ∃ xs, (read_samples n fmt trace).2 = RdRes.ret xs ∧ xs.length = n) ∧
    (∀ (n : ℕ) (trace : List (R16 × R8)),
        soapy_capture n trace = CapRes.raised ∨
        soapy_capture n trace = CapRes.blocked ∨
        ∃ xs, soapy_capture n trace = CapRes.filled xs ∧ xs.length = n) :=
  ⟨fun n trace fmt => readLoop_shape n trace fmt [],
   fun n trace => soapyLoop_shape n trace []⟩

/-- Clip accounting invariant of the `read_samples_with_stats` loop: when the
running counters equal the clip count and length of the raw integers consumed
so far, the final clip fraction is the clip count of all consumed raw
integers (thresholds 32760 / 127) over `max(1, raw_count)`. -/
theorem statsLoop_clip (n : ℕ) : ∀ (trace : List (R16 × R8)) (fmt : Fmt) (acc : List IQ)
    (g16 g8 : List ℤ) (buf : List IQ) (cf : ℚ) (h16 h8 : List ℤ),
    statsLoop n trace fmt acc (g16.countP clipTest16 + g8.countP clipTest8)
      (g16.length + g8.length) g16 g8 = (SRes.done buf cf, h16, h8) →
    cf = ((h16.countP clipTest16 + h8.countP clipTest8 : ℕ) : ℚ) /
      (max 1 ((h16.length + h8.length : ℕ) : ℚ)) := by
  intro trace
  induction trace with
  | nil =>
    intro fmt acc g16 g8 buf cf h16 h8 hEq
    simp only [statsLoop] at hEq
    split at hEq
    · simp only [Prod.mk.injEq] at hEq
      obtain ⟨hd, hg16, hg8⟩ := hEq
      injection hd with hbuf hcf
      subst hg16; subst hg8; subst hcf
      rfl
    · simp at hEq
  | cons e rest ih =>
    obtain ⟨r16, r8⟩ := e
    intro fmt acc g16 g8 buf cf h16 h8 hEq
    simp only [statsLoop] at hEq
    split at hEq
    · simp only [Prod.mk.injEq] at hEq
      obtain ⟨hd, hg16, hg8⟩ := hEq
      injection hd with hbuf hcf
      subst hg16; subst hg8; subst hcf
      rfl
    · split at hEq
      · simp at hEq
      · split at hEq
        · rename_i frames hfr
          have e1 : g16.countP clipTest16 + g8.countP clipTest8 +
              (flatRaw (frames.take (min 4096 (n - acc.length)))).countP clipTest16 =
              (g16 ++ flatRaw (frames.take (min 4096 (n - acc.length)))).countP clipTest16 +
                g8.countP clipTest8 := by
            rw [List.countP_append]; omega
          have e2 : g16.length + g8.length +
              (flatRaw (frames.take (min 4096 (n - acc.length)))).length =
              (g16 ++ flatRaw (frames.take (min 4096 (n - acc.length)))).length +
                g8.length := by
            rw [List.length_append]; omega
          rw [e1, e2] at hEq
          exact ih _ _ _ _ _ _ _ _ hEq
        · split at hEq
          · simp at hEq
          · split at hEq
            · rename_i frames8 hfr8
              have e1 : g16.countP clipTest16 + g8.countP clipTest8 +
                  (flatRaw (frames8.take (min 4096 (n - acc.length)))).countP clipTest8 =
                  g16.countP clipTest16 +
                    (g8 ++ flatRaw (frames8.take (min 4096 (n - acc.length)))).countP clipTest8 := by
                rw [List.countP_append]; omega
              have e2 : g16.length + g8.length +
                  (flatRaw (frames8.take (min 4096 (n - acc.length)))).length =
                  g16.length +
                    (g8 ++ flatRaw (frames8.take (min 4096 (n - acc.length)))).length := by
                rw [List.length_append]; omega
              rw [e1, e2] at hEq
              exact ih _ _ _ _ _ _ _ _ hEq
            · exact ih _ _ _ _ _ _ _ _ hEq
      · split at hEq
        · simp at hEq
        · split at hEq
          · rename_i frames8 hfr8
            have e1 : g16.countP clipTest16 + g8.countP clipTest8 +
                (flatRaw (frames8.take (min 4096 (n - acc.length)))).countP clipTest8 =
                g16.countP clipTest16 +
                  (g8 ++ flatRaw (frames8.take (min 4096 (n - acc.length)))).countP clipTest8 := by
              rw [List.countP_append]; omega
            have e2 : g16.length + g8.length +
                (flatRaw (frames8.take (min 4096 (n - acc.length)))).length =
                g16.length +
                  (g8 ++ flatRaw (frames8.take (min 4096 (n - acc.length)))).length := by
              rw [List.length_append]; omega
            rw [e1, e2] at hEq
            exact ih _ _ _ _ _ _ _ _ hEq
          · exact ih _ _ _ _ _ _ _ _ hEq

/-- C3 (amended): whenever `read_samples_with_stats` returns normally, its
clip fraction equals the number of raw integer values at the code's
near-rail thresholds — `|raw| ≥ 32760` on the 16-bit path, `|raw| ≥ 127` on
the 8-bit path — divided by `max(1, raw_count)`, computed on the integer
samples before normalization. -/
theorem c3_clip_amended (n : ℕ) (trace : List (R16 × R8)) (fmt : Fmt)
    (buf : List IQ) (cf : ℚ) (g16 g8 : List ℤ)
    (h : read_samples_with_stats n fmt trace = (SRes.done buf cf, g16, g8)) :
    cf = ((g16.countP clipTest16 + g8.countP clipTest8 : ℕ) : ℚ) /
      (max 1 ((g16.length + g8.length : ℕ) : ℚ)) :=
  statsLoop_clip n trace fmt [] [] [] buf cf g16 g8 h

/-- C3 witness: a 16-bit read of the frame (100, 200) terminates with clip
fraction 0/2, matching the amended formula at a concrete input. -/
theorem c3_witness :
    read_samples_with_stats 1 Fmt.cs16 [(R16.ok [(100, 200)], R8.ok [])] =
      (SRes.done [norm16 (100, 200)] (((0 : ℕ) : ℚ) / max 1 ((2 : ℕ) : ℚ)),
        [100, 200], []) ∧
    ((0 : ℕ) : ℚ) / max 1 ((2 : ℕ) : ℚ) =
      ((([100, 200] : List ℤ).countP clipTest16 + ([] : List ℤ).countP clipTest8 : ℕ) : ℚ) /
        (max 1 ((([100, 200] : List ℤ).length + ([] : List ℤ).length : ℕ) : ℚ)) :=
  ⟨rfl, c3_clip_amended 1 [(R16.ok [(100, 200)], R8.ok [])] Fmt.cs16 _ _ _ _ rfl⟩

/-- C3 counterexample: a 16-bit read containing the raw value 32760 is
counted as clipped by the code (threshold 32760), but not by the
specification's formula (threshold `fullscale − 1 = 32767`): the returned
clip fraction is 1/2 while the specification's count gives 0/2. -/
theorem c3_counterexample :
    read_samples_with_stats 1 Fmt.cs16 [(R16.ok [(32760, 0)], R8.ok [])] =
      (SRes.done [norm16 (32760, 0)] (((1 : ℕ) : ℚ) / max 1 ((2 : ℕ) : ℚ)),
        [32760, 0], []) ∧
    ((1 : ℕ) : ℚ) / max 1 ((2 : ℕ) : ℚ) ≠ specClipFrac [32760, 0] [] := by
  constructor
  · rfl
  · simp only [specClipFrac]
    norm_num

/-- Python truncation agrees with the floor on nonnegative inputs. -/
theorem pyInt_eq_floor (x : ℚ) (hx : 0 ≤ x) : pyInt x = ⌊x⌋ := if_pos hx

/-- C6 counterexample: on a short envelope with `sample_rate_hz = 10000` and
the NTSC rate the estimator returns `int(10000 / 15734) = 0`, which lies
strictly below the specification's real-valued lower bound
`sr / (f_line · 1.15) ≈ 0.553`. -/
theorem c6_counterexample :
    estimate_line_len [] 10000 true = 0 ∧
    ¬ ((10000 : ℚ) / (lineRate true * (23 / 20)) ≤
        ((estimate_line_len [] 10000 true : ℤ) : ℚ)) := by
  have h : estimate_line_len [] 10000 true = 0 := by
    simp only [estimate_line_len, peakLag, lineRate]
    norm_num [pyInt]
  refine ⟨h, ?_⟩
  rw [h]
  norm_num [lineRate]

/-- C6 (amended): for every envelope and positive sample rate the returned
line-period estimate lies within the integer bounds the code actually
enforces, `[int(sr/(f_line·1.15)), int(sr/(f_line·0.85))]` — the floors of
the specification's real-valued interval endpoints. -/
theorem c6_lag_bounds (envelope : List ℚ) (srHz : ℚ) (preferNtsc : Bool)
    (hsr : 0 < srHz) :
    pyInt (srHz / (lineRate preferNtsc * (23 / 20))) ≤
      estimate_line_len envelope srHz preferNtsc ∧
    estimate_line_len envelope srHz preferNtsc ≤
      pyInt (srHz / (lineRate preferNtsc * (17 / 20))) := by
  have hlr : 0 < lineRate preferNtsc := by cases preferNtsc <;> norm_num [lineRate]
  have h23 : 0 < lineRate preferNtsc * (23 / 20) := by positivity
  have h17 : 0 < lineRate preferNtsc * (17 / 20) := by positivity
  have hq23 : 0 ≤ srHz / (lineRate preferNtsc * (23 / 20)) := by positivity
  have hq17 : 0 ≤ srHz / (lineRate preferNtsc * (17 / 20)) := by positivity
  have hqmid : 0 ≤ srHz / lineRate preferNtsc := by positivity
  have hd1 : srHz / (lineRate preferNtsc * (23 / 20)) ≤ srHz / lineRate preferNtsc := by
    gcongr
    nlinarith [hlr]
  have hd2 : srHz / lineRate preferNtsc ≤ srHz / (lineRate preferNtsc * (17 / 20)) := by
    gcongr
    nlinarith [hlr]
  have hd3 : srHz / (lineRate preferNtsc * (23 / 20)) ≤
      srHz / (lineRate preferNtsc * (17 / 20)) := le_trans hd1 hd2
  unfold estimate_line_len peakLag
  by_cases hn : envelope.length < 4096
  · rw [if_pos hn]
    constructor
    · rw [pyInt_eq_floor _ hq23, pyInt_eq_floor _ hqmid]
      exact Int.floor_le_floor hd1
    · rw [pyInt_eq_floor _ hq17, pyInt_eq_floor _ hqmid]
      exact Int.floor_le_floor hd2
  · rw [if_neg hn]
    have hminmax : pyInt (srHz / (lineRate preferNtsc * (23 / 20))) ≤
        pyInt (srHz / (lineRate preferNtsc * (17 / 20))) := by
      rw [pyInt_eq_floor _ hq23, pyInt_eq_floor _ hq17]
      exact Int.floor_le_floor hd3
    constructor
    · exact le_max_left _ _
    · exact max_le hminmax (min_le_left _ _)

/-- C6 witness: the amended bounds hold at the concrete counterexample input
(`sr = 10000 > 0`, NTSC, empty envelope). -/
theorem c6_witness :
    (0 : ℚ) < 10000 ∧
    (pyInt ((10000 : ℚ) / (lineRate true * (23 / 20))) ≤
        estimate_line_len [] 10000 true ∧
      estimate_line_len [] 10000 true ≤
        pyInt ((10000 : ℚ) / (lineRate true * (17 / 20)))) :=
  ⟨by norm_num, c6_lag_bounds [] 10000 true (by norm_num)⟩

/-- C7 counterexample: with clip fraction 1/2 (> 0.01), VGA 16 and rms 0.05,
the AGC iteration first steps the VGA down to 10 but then applies its `±6`
RMS nudge in the same iteration, ending at VGA 16 — not at
`max(0, 16 − 6) = 10` as the claim requires. -/
theorem c7_counterexample :
    (1 : ℚ) / 100 < 1 / 2 ∧
    (auto_gain_iter (fun _ => ((1 : ℚ) / 20, (1 : ℚ) / 2)) (1 / 4) (1 / 100)
        ⟨⟨28, 16⟩, 1 / 20, 1 / 2, 0, false⟩).gains.vga = 16 ∧
    (16 : ℤ) ≠ max 0 (16 - 6) := by
  refine ⟨by norm_num, ?_, by norm_num⟩
  simp only [auto_gain_iter, setVga, setLna]
  norm_num

/-- C7 (amended): in every running AGC iteration whose measured clip
fraction exceeds 0.01, the VGA is first stepped down by 6 (clamped at 0),
but the same iteration then also applies the `±6` nudge toward the target
RMS, so the iteration ends with
`vga = clamp(clamp(vga − 6, 0, 62) + (rms < target ? +6 : −6), 0, 62)` —
a net decrease of 6 only when the RMS error does not call for an upward
step. -/
theorem c7_agc_amended (meas : ℕ → ℚ × ℚ) (targetRms : ℚ) (s : AgcState)
    (hclip : 1 / 100 < s.clip) (hrun : s.stopped = false) :
    (auto_gain_iter meas targetRms (1 / 100) s).gains.vga =
      max 0 (min 62 (max 0 (min 62 (s.gains.vga - 6)) +
        (if 0 < targetRms - s.rms then 6 else -6))) := by
  simp only [auto_gain_iter, setVga, setLna, hrun, hclip]
  split_ifs <;> simp_all

/-- C7 witness: the amended formula evaluated at the counterexample input. -/
theorem c7_witness :
    (1 : ℚ) / 100 < 1 / 2 ∧
    (auto_gain_iter (fun _ => ((1 : ℚ) / 20, (1 : ℚ) / 2)) (1 / 4) (1 / 100)
        ⟨⟨28, 16⟩, 1 / 20, 1 / 2, 0, false⟩).gains.vga =
      max 0 (min 62 (max 0 (min 62 ((16 : ℤ) - 6)) +
        (if 0 < (1 : ℚ) / 4 - 1 / 20 then 6 else -6))) :=
  ⟨by norm_num,
   c7_agc_amended (fun _ => ((1 : ℚ) / 20, (1 : ℚ) / 2)) (1 / 4)
     ⟨⟨28, 16⟩, 1 / 20, 1 / 2, 0, false⟩ (by norm_num) rfl⟩

/-- C8 counterexample: on a non-hot channel, two successive captures with
identical arguments return different buffers, because each call consumes
fresh draws of the process-global RNG (here the identity stream): the first
call returns `[(0, 1/5)]`, the second `[(2/5, 3/5)]`. -/
theorem c8_counterexample :
    (synthetic_capture toneZero 5806000000 0 8000000 1 rngId).1 ≠
      (synthetic_capture toneZero 5806000000 0 8000000 1
        (synthetic_capture toneZero 5806000000 0 8000000 1 rngId).2).1 := by
  simp only [synthetic_capture, normalDraws, toneZero, rngId]
  have h1 : List.range 1 = [0] := rfl
  rw [h1]
  simp only [List.map_cons, List.map_nil, List.zip_cons_cons, List.zip_nil_right,
    ne_eq, List.cons.injEq, Prod.mk.injEq]
  norm_num

/-- C8 (amended): the synthetic sampler is deterministic only as a function
of its arguments and the RNG state: two captures whose underlying streams
agree on the `2n` consumed draw positions return identical buffers, and each
call advances the RNG cursor by exactly `2n` (n real draws, then n imaginary
draws). Calls at distinct cursor positions consume disjoint draws and, as
the counterexample shows, generally differ. -/
theorem c8_deterministic_given_rng (tone : ℚ → ℕ → IQ) (hot freqHz : ℤ)
    (srHz : ℚ) (n : ℕ) (r s : RngState)
    (h : ∀ k, k < 2 * n → r.stream (r.pos + k) = s.stream (s.pos + k)) :
    (synthetic_capture tone hot freqHz srHz n r).1 =
      (synthetic_capture tone hot freqHz srHz n s).1 ∧
    (synthetic_capture tone hot freqHz srHz n r).2.pos = r.pos + 2 * n := by
  have hre : (List.range n).map (fun i => (1 : ℚ) / 5 * r.stream (r.pos + i)) =
      (List.range n).map (fun i => (1 : ℚ) / 5 * s.stream (s.pos + i)) := by
    apply List.map_congr_left
    intro i hi
    rw [h i (by have := List.mem_range.mp hi; omega)]
  have him : (List.range n).map (fun i => (1 : ℚ) / 5 * r.stream (r.pos + n + i)) =
      (List.range n).map (fun i => (1 : ℚ) / 5 * s.stream (s.pos + n + i)) := by
    apply List.map_congr_left
    intro i hi
    have hk := h (n + i) (by have := List.mem_range.mp hi; omega)
    rw [add_assoc, hk, ← add_assoc]
  constructor
  · simp only [synthetic_capture, normalDraws]
    rw [hre, him]
    split_ifs <;> rfl
  · simp only [synthetic_capture, normalDraws]
    split_ifs <;> (simp; omega)

/-- C8 witness: determinism-given-RNG-state applied at a concrete input
(both calls at the identity stream, cursor 0): the cursor advances by 2. -/
theorem c8_witness :
    (∀ k, k < 2 * 1 → rngId.stream (rngId.pos + k) = rngId.stream (rngId.pos + k)) ∧
    (synthetic_capture toneZero 5806000000 0 8000000 1 rngId).2.pos = rngId.pos + 2 * 1 :=
  ⟨fun _ _ => rfl,
   (c8_deterministic_given_rng toneZero 5806000000 0 8000000 1 rngId rngId
     (fun _ _ => rfl)).2⟩

/-- The truncated linspace always yields exactly `width` column indices. -/
theorem linspaceIdx_length (lineLen width : ℕ) :
    (linspaceIdx lineLen width).length = width := by
  unfold linspaceIdx
  split_ifs with h0 h1
  · simp [h0]
  · simp [h1]
  · simp


/-- Flattening the per-row column samples yields `rows · idx` entries. -/
theorem sampledRows_length (rows : List (List ℚ)) (idx : List ℕ) :
    ((rows.map (fun row => idx.map (fun i => row.getD i 0))).flatten).length =
      rows.length * idx.length := by
  induction rows with
  | nil => simp
  | cons r rs ih =>
    rw [List.map_cons, List.flatten_cons, List.length_append, List.length_map, ih,
      List.length_cons]
    ring

/-- Whatever the padded envelope, a produced pixel buffer has exactly
`width · height` bytes. -/
theorem rasterPixels_size (e : List ℚ) (lineLen width height : ℕ) (img : List ℕ)
    (h : rasterPixels e lineLen width height = some img) :
    img.length = width * height := by
  simp only [rasterPixels] at h
  repeat' split at h
  all_goals cases h <;>
    (rw [List.length_map, sampledRows_length, List.length_map, List.length_range,
       linspaceIdx_length]
     exact Nat.mul_comm _ _)

/-- C9: whenever the raster assembler returns a pixel buffer at all, that
buffer holds exactly `width · height` gray8 bytes; every degenerate input
(empty envelope needing padding, zero dimension, reshape mismatch) makes
numpy raise instead of producing a wrongly-sized buffer. -/
theorem c9_frame_size (env : List ℚ) (lineLen width height : ℕ) (img : List ℕ)
    (h : frame_from_raster env lineLen width height = some img) :
    img.length = width * height := by
  cases env with
  | nil =>
    simp only [frame_from_raster] at h
    split at h
    · cases h
    · exact rasterPixels_size _ _ _ _ _ h
  | cons x xs =>
    simp only [frame_from_raster] at h
    split at h
    · exact rasterPixels_size _ _ _ _ _ h
    · exact rasterPixels_size _ _ _ _ _ h

/-- Concrete evaluation: the 5th and 95th percentiles of the one-element
frame `[1]` are both 1. -/
theorem percentileQ_singleton (p : ℚ) :
    percentileQ [1] p = some 1 := by
  simp only [percentileQ, sortAsc, List.foldr_cons, List.foldr_nil, insertAsc]
  norm_num

/-- C9 concrete run: `env = [1]`, `L = W = H = 1` produces the one-byte
buffer `[0]`. -/
theorem c9_frame_size_eval :
    frame_from_raster [1] 1 1 1 = some [0] := by
  have h5 : percentileQ [1] 5 = some 1 := percentileQ_singleton 5
  have h95 : percentileQ [1] 95 = some 1 := percentileQ_singleton 95
  have hrange : List.range 1 = [0] := rfl
  simp only [frame_from_raster, rasterPixels, linspaceIdx, hrange]
  norm_num [h5, h95, clip01, toByte]

/-- C9 witness applying the size theorem at the concrete run. -/
theorem c9_witness :
    frame_from_raster [1] 1 1 1 = some [0] ∧ ([0] : List ℕ).length = 1 * 1 :=
  ⟨c9_frame_size_eval, c9_frame_size [1] 1 1 1 [0] c9_frame_size_eval⟩

/-- C10: a tracking iteration in which no AFC probe beats the current
quality by more than 0.02 (here all probe qualities are 0 against current
quality 0.5) ends with the hardware still at the last probed offset,
`tuned_f + 50 kHz`, while the emitted metadata reports `tuned_f`: the probe
offsets are left applied to the device. -/
theorem c10_probe_left_applied :
    afcStep 5806000000 (1 / 2) (fun _ => 0) = (5806000000, 5806050000) ∧
    (5806050000 : ℤ) ≠ 5806000000 := by
  constructor
  · norm_num [afcStep, afcDeltas, List.foldl_cons, List.foldl_nil]
  · norm_num
